import Mathlib

/-! Verification of the EdgeOne Pages deployment tool.

This file gives a shallow embedding, in Lean, of the deployment
orchestration code of the repository (the folder/zip deploy path), and
proves properties about it.  Pure computations are translated directly;
remote calls are modelled by passing their outcomes as explicit
arguments (an `Except String` value stands for a promise that either
resolves or rejects); module-level mutable state is modelled by explicit
state records threaded through the functions. -/

namespace EdgeOnePages

/-- String extensionality: two strings with the same character data are equal. -/
theorem strExt {a b : String} (h : a.data = b.data) : a = b := by
  cases a; cases b; exact congrArg String.mk h

/-- Character data of an appended string. -/
theorem strData_append (a b : String) : (a ++ b).data = a.data ++ b.data := by
  cases a; cases b; rfl

/-- String append is associative. -/
theorem strAppend_assoc (a b c : String) : a ++ b ++ c = a ++ (b ++ c) := by
  apply strExt
  simp [strData_append]

/-! ## Endpoint resolver (checkAndSetBaseUrl, part_002 lines 249-297) -/

/-- First candidate API base URL (source line 9). -/
def BASE_API_URL1 : String := "https://pages-api.cloud.tencent.com/v1"

/-- Second candidate API base URL (source line 10). -/
def BASE_API_URL2 : String := "https://pages-api.edgeone.ai/v1"

/-- The error thrown when neither probe body reports success (source lines 292-296). -/
def invalidTokenMessage : String :=
  "Invalid EDGEONE_PAGES_API_TOKEN. Please check your API token. For more information, please refer to https://edgeone.ai/document/177158578324279296"

/-- Models the body-parse step of the resolver: res.json() with a catch
that substitutes a Code of -1 when the body is unparseable
(source lines 277-282).  The input is none for an unparseable body. -/
def parsedCode (body : Option Int) : Int := body.getD (-1)

/-- Outcome of one probe fetch: the promise either rejects with an error
or resolves with a body whose parse result is an optional Code. -/
abbrev ProbeOutcome := Except String (Option Int)

/-- Shallow embedding of checkAndSetBaseUrl (source lines 249-297).  The
two probe outcomes are given as arguments, in source order; the first
fetch is awaited before the second is even issued, so a rejection of the
first fetch propagates with the second probe never sent.  The returned
list records which candidate URLs were actually probed, and the Except
value is the selected base URL or the thrown error. -/
def checkAndSetBaseUrl (probe1 probe2 : ProbeOutcome) :
    List String × Except String String :=
  match probe1 with
  | .error e => ([BASE_API_URL1], .error e)
  | .ok body1 =>
    match probe2 with
    | .error e => ([BASE_API_URL1, BASE_API_URL2], .error e)
    | .ok body2 =>
      if parsedCode body1 = 0 then
        ([BASE_API_URL1, BASE_API_URL2], .ok BASE_API_URL1)
      else if parsedCode body2 = 0 then
        ([BASE_API_URL1, BASE_API_URL2], .ok BASE_API_URL2)
      else
        ([BASE_API_URL1, BASE_API_URL2], .error invalidTokenMessage)

/-! ## Path validation (isZipFile, validateFolder; part_002 lines 503-505, 806-821) -/

/-- Lowercases every character, modelling JS toLowerCase on ASCII data. -/
def toLowerData (l : List Char) : List Char := l.map Char.toLower

/-- The part of a path after the final slash.  Models the basename step
of path.extname from the Node path library used by the source. -/
def lastComponent (l : List Char) : List Char :=
  l.foldl (fun acc c => if c = '/' then [] else acc ++ [c]) []

/-- Index of the last dot of a character list, if any. -/
def lastDotIdx (base : List Char) : Option Nat :=
  (List.range base.length).foldl
    (fun acc i => if base.get? i = some '.' then some i else acc) none

/-- Extension of a path component.  Models Node path.extname restricted
to the basename: empty when there is no dot or the only dot leads the
name (a dotfile such as ".zip" has no extension), otherwise the suffix
from the last dot. -/
def extnameData (base : List Char) : List Char :=
  if base = ['.', '.'] then []
  else
    match lastDotIdx base with
    | none => []
    | some 0 => []
    | some i => base.drop i

/-- Shallow embedding of isZipFile (source lines 503-505):
path.extname(filePath).toLowerCase() === ".zip". -/
def isZipFile (filePath : String) : Bool :=
  decide (toLowerData (extnameData (lastComponent filePath.data)) = ".zip".data)

/-- Shallow embedding of validateFolder (source lines 806-821).  The
filesystem facts fs.access (existence) and stats.isDirectory() are
passed as arguments; the result is the thrown error or the isZip flag. -/
def validateFolder (localPath : String) (pathExists isDirectory : Bool) :
    Except String Bool :=
  if !pathExists then .error "localPath does not exist"
  else
    let isZip := isZipFile localPath
    if !isDirectory && !isZip then .error "localPath must be a folder or zip file"
    else .ok isZip

/-! ## Log capture and transcript (formatLogs; part_002 lines 15-91) -/

/-- One captured log entry (source lines 15-19). -/
structure LogEntry where
  timestamp : String
  level : String
  message : String
deriving DecidableEq, Repr

/-- The dedup key of the source: level, colon, space, message
(source line 76). -/
def logKey (e : LogEntry) : String := e.level ++ ": " ++ e.message

/-- Shallow embedding of the uniqueLogs filter of formatLogs (source
lines 74-82): keep an entry when its key was not seen before, recording
seen keys.  The seen set is modelled as a list. -/
def dedupLogs : List LogEntry → List String → List LogEntry
  | [], _ => []
  | e :: rest, seen =>
    if logKey e ∈ seen then dedupLogs rest seen
    else e :: dedupLogs rest (logKey e :: seen)

/-- Shallow embedding of formatLogs (source lines 68-91). -/
def formatLogs (logs : List LogEntry) : String :=
  if logs = [] then ""
  else
    let uniqueLogs := dedupLogs logs []
    let logLines := uniqueLogs.map logKey
    "Deployment Process Log:\n" ++ String.mk (List.replicate 50 '=') ++ "\n"
      ++ String.intercalate "\n" logLines
      ++ "\n" ++ String.mk (List.replicate 50 '=') ++ "\n\n"

/-- Reference first-occurrence deduplication of (level, message) pairs,
used to state what the transcript should contain. -/
def dedupPairs : List (String × String) → List (String × String) → List (String × String)
  | [], _ => []
  | p :: rest, seen =>
    if p ∈ seen then dedupPairs rest seen
    else p :: dedupPairs rest (p :: seen)

/-- The (level, message) pair of an entry. -/
def pairOf (e : LogEntry) : String × String := (e.level, e.message)

/-- The four levels installed by overrideConsole (source lines 49-52);
every entry captured within a run carries one of them. -/
abbrev capturedLevel (s : String) : Prop :=
  s = "LOG" ∨ s = "ERROR" ∨ s = "WARN" ∨ s = "INFO"

/-- The transcript line of a (level, message) pair. -/
def pairKey (p : String × String) : String := p.1 ++ ": " ++ p.2

/-! ## Remote data model (part_002 lines 171-219) -/

/-- A custom domain with its own validation status (source lines 176-179). -/
structure CustomDomain where
  Status : String
  Domain : String
deriving DecidableEq, Repr

/-- A remote project (source lines 171-180).  Only the fields read by the
embedded functions are modelled; CustomDomains is optional in the remote
payload, as in the source interface. -/
structure Project where
  ProjectId : String
  Name : String
  Status : String
  PresetDomain : String
  CustomDomains : Option (List CustomDomain)
deriving DecidableEq, Repr

/-- A deployment entry from DescribePagesDeployments (source lines
201-219); only the fields the embedded functions read are modelled. -/
structure Deployment where
  DeploymentId : String
  Status : String
  PreviewUrl : String
deriving DecidableEq, Repr

/-- Payload of the encipher-token response (source lines 194-199),
flattened together with the envelope Code and Message fields. -/
structure EncipherResponse where
  Code : Int
  Token : String
  Timestamp : Int
  Message : String
deriving DecidableEq, Repr

/-- The requested deployment environment (source line 514). -/
inductive Env where
  | Production
  | Preview
deriving DecidableEq, Repr

/-! ## Deployment status polling (pollProjectStatus, part_002 lines 769-801) -/

/-- Shallow embedding of pollProjectStatus (source lines 769-801).  Each
element of the trace is the Deployments array of one
DescribePagesDeployments response, in poll order.  The loop finds the
entry with the matching DeploymentId, throws when it is absent, exits
with the entry once its Status differs from the in-flight marker, and
otherwise sleeps and polls again.  A none result means the trace was
exhausted with the loop still running. -/
def pollProjectStatus (deploymentId : String) :
    List (List Deployment) → Option (Except String Deployment)
  | [] => none
  | ds :: rest =>
    match ds.find? (fun d => d.DeploymentId == deploymentId) with
    | none => some (.error ("Deployment with ID " ++ deploymentId ++ " not found"))
    | some deployment =>
      if deployment.Status ≠ "Process" then some (.ok deployment)
      else pollProjectStatus deploymentId rest

/-! ## Result URL resolution (getDeploymentStructuredResult, part_002 lines 846-923) -/

/-- Drops a leading character-list pattern, returning the remainder when
the pattern is a prefix. -/
def dropPre : List Char → List Char → Option (List Char)
  | [], s => some s
  | _ :: _, [] => none
  | p :: ps, c :: cs => if p = c then dropPre ps cs else none

/-- Replaces the first occurrence of a pattern, modelling the JS
String.replace method with a plain string pattern. -/
def replaceFirstAux (pat rep : List Char) : List Char → List Char
  | [] => []
  | c :: cs =>
    match dropPre pat (c :: cs) with
    | some rest => rep ++ rest
    | none => c :: replaceFirstAux pat rep cs

/-- String form of replaceFirstAux. -/
def jsReplaceFirst (s pat rep : String) : String :=
  String.mk (replaceFirstAux pat.data rep.data s.data)

/-- Shallow embedding of getProjectConsoleUrl (source lines 826-837); the
module variable BASE_API_URL is passed as an argument. -/
def getProjectConsoleUrl (baseApiUrl projectId : String) : String :=
  let url1 := "https://console.cloud.tencent.com/edgeone/pages/project/" ++ projectId ++ "/index"
  let url2 := "https://console.tencentcloud.com/edgeone/pages/project/" ++ projectId ++ "/index"
  if baseApiUrl = BASE_API_URL1 then url1
  else if baseApiUrl = BASE_API_URL2 then url2
  else url1

/-- The domain the temporary URL is built from (source lines 889-891):
the deployment PreviewUrl with a leading https scheme stripped when the
field is truthy, else the project PresetDomain. -/
def resolvedDomain (deploymentResult : Deployment) (project : Project) : String :=
  if deploymentResult.PreviewUrl ≠ "" then
    jsReplaceFirst deploymentResult.PreviewUrl "https://" ""
  else project.PresetDomain

/-- The structured deployment result (source lines 850-856). -/
structure StructuredResult where
  type : String
  url : String
  projectId : String
  consoleUrl : String
  projectName : String
deriving DecidableEq, Repr

/-- Shallow embedding of getDeploymentStructuredResult (source lines
846-923).  The DescribePagesProjects re-fetch is passed as
fetchedProject (none when the response carries no first project), and
the DescribePagesEncipherToken call as the function encipher from the
requested domain text to its outcome.  JS truthiness of the string and
number fields is modelled as difference from the empty string and from
zero. -/
def getDeploymentStructuredResult (deploymentResult : Deployment)
    (projectId : String) (env : Env) (fetchedProject : Option Project)
    (encipher : String → Except String EncipherResponse)
    (baseApiUrl : String) : Except String StructuredResult :=
  match fetchedProject with
  | none => .error "Failed to retrieve project status information."
  | some project =>
    if deploymentResult.Status = "Success" then
      let customResult : Option StructuredResult :=
        if env = .Production then
          match project.CustomDomains with
          | some (customDomain :: _) =>
            if customDomain.Status = "Pass" then
              some { type := "custom",
                     url := "https://" ++ customDomain.Domain,
                     projectId := projectId,
                     projectName := project.Name,
                     consoleUrl := getProjectConsoleUrl baseApiUrl projectId }
            else none
          | _ => none
        else none
      match customResult with
      | some r => .ok r
      | none =>
        let domain := resolvedDomain deploymentResult project
        match encipher domain with
        | .error e => .error e
        | .ok enc =>
          if enc.Code ≠ 0 ∨ enc.Token = "" ∨ enc.Timestamp = 0 then
            .error ("Deployment completed, but failed to get access token: "
              ++ (if enc.Message ≠ "" then enc.Message else "Invalid token data"))
          else
            .ok { type := "temporary",
                  url := "https://" ++ domain ++ "?eo_token=" ++ enc.Token
                          ++ "&eo_time=" ++ toString enc.Timestamp,
                  projectId := projectId,
                  projectName := project.Name,
                  consoleUrl := getProjectConsoleUrl baseApiUrl projectId }
    else .error ("Deployment failed with status: " ++ deploymentResult.Status)

/-! ## Result formatting (formatDeploymentMessage, part_001 lines 716-730) -/

/-- The structured result shape of the older variant (part_001 lines
659-661): a type tag and a url. -/
structure SimpleResult where
  type : String
  url : String
deriving DecidableEq, Repr

/-- Shallow embedding of formatDeploymentMessage (part_001 lines
716-730).  The remote formatting service is modelled as a function from
the posted structured result to the outcome of fetch plus res.json():
reject or a text.  The body has no try/catch and no fallback, so the
outcome is returned as is. -/
def formatDeploymentMessage (deploymentResult : SimpleResult)
    (remoteFormat : SimpleResult → Except String String) : Except String String :=
  match remoteFormat deploymentResult with
  | .error e => .error e
  | .ok text => .ok text

/-- Shallow embedding of the final step of deployFolderOrZipToEdgeOne in
the older variant (part_001 lines 788-792): once the structured result
is computed, the formatting call is awaited and its text returned; the
enclosing function has no try/catch, so an error propagates out of the
deploy operation. -/
def deployFinalStep (structuredResult : SimpleResult)
    (remoteFormat : SimpleResult → Except String String) : Except String String :=
  match formatDeploymentMessage structuredResult remoteFormat with
  | .error e => .error e
  | .ok text => .ok text

/-! ## Credential broker cache (getCosTempToken, part_002 lines 227-343) -/

/-- The temporary COS token payload (source lines 143-162), flattened:
the envelope Code plus the fields of Data.Response that the source
reads. -/
structure CosTempTokenResponse where
  Code : Int
  Bucket : String
  Region : String
  TargetPath : String
  Token : String
  TmpSecretId : String
  TmpSecretKey : String
deriving DecidableEq, Repr

/-- The module-level token cache (source lines 227-236).  The cos field
holds the credentials the cached COS client was built from. -/
structure TokenCache where
  token : Option CosTempTokenResponse
  cos : Option CosTempTokenResponse
deriving DecidableEq, Repr

/-- Shallow embedding of resetTokenCache (source lines 238-242). -/
def resetTokenCache (_cache : TokenCache) : TokenCache :=
  { token := none, cos := none }

/-- The per-run mutable state relevant to the credential broker: the
token cache plus a counter of remote temp-token round trips actually
performed, used to state the caching property. -/
structure TokenRunState where
  cache : TokenCache
  fetchCount : Nat
deriving DecidableEq, Repr

/-- Shallow embedding of getCosTempToken (source lines 303-343).  The
configured project name is given as a string (the empty string models an
unset EDGEONE_PAGES_PROJECT_NAME); lookup is the outcome of the
DescribePagesProjects call of the project-name branch; fetchToken gives
the outcome of the n-th remote temp-token request of the run.  A cache
hit returns immediately; otherwise the request body is chosen, the
fetch is performed (incrementing the round-trip counter), and a
successful response is cached before being returned. -/
def getCosTempToken (projectName : String)
    (lookup : Except String (List Project))
    (fetchToken : Nat → Except String CosTempTokenResponse)
    (st : TokenRunState) :
    Except String CosTempTokenResponse × TokenRunState :=
  match st.cache.token with
  | some t => (.ok t, st)
  | none =>
    let bodyOk : Except String Unit :=
      if projectName ≠ "" then
        match lookup with
        | .error e => .error e
        | .ok [] => .error ("Project " ++ projectName ++ " not found")
        | .ok (_ :: _) => .ok ()
      else .ok ()
    match bodyOk with
    | .error e => (.error e, st)
    | .ok _ =>
      match fetchToken st.fetchCount with
      | .error e => (.error e, { st with fetchCount := st.fetchCount + 1 })
      | .ok t =>
        (.ok t,
         { cache := { st.cache with token := some t },
           fetchCount := st.fetchCount + 1 })

/-- The start of a deployment run resets the token cache before anything
else (deployFolderOrZipToEdgeOne, source lines 940-942); the round-trip
counter of the new run starts at zero. -/
def runStart (previous : TokenRunState) : TokenRunState :=
  { cache := resetTokenCache previous.cache, fetchCount := 0 }

/-- Iterates getCosTempToken, collecting the outcomes of n successive
calls within one run. -/
def callTokenN (projectName : String)
    (lookup : Except String (List Project))
    (fetchToken : Nat → Except String CosTempTokenResponse) :
    Nat → TokenRunState → List (Except String CosTempTokenResponse) × TokenRunState
  | 0, st => ([], st)
  | n + 1, st =>
    let r := getCosTempToken projectName lookup fetchToken st
    let rest := callTokenN projectName lookup fetchToken n r.2
    (r.1 :: rest.1, rest.2)

/-! ## Console interception (overrideConsole, restoreConsole; part_002 lines 24-62) -/

/-- A value held in one console slot: either an ordinary function or the
log-capture wrapper built by createLogFunction around an original
function (source lines 29-47). -/
inductive ConsoleFn (α : Type) where
  | base (f : α)
  | wrapper (level : String) (orig : ConsoleFn α)
deriving DecidableEq, Repr

/-- The four console slots the source overrides (source lines 49-52). -/
structure ConsoleState (α : Type) where
  log : ConsoleFn α
  error : ConsoleFn α
  warn : ConsoleFn α
  info : ConsoleFn α
deriving DecidableEq, Repr

/-- The module state touched by the interception: the global console
object and the module variable originalConsole (source line 22). -/
structure ConsoleModuleState (α : Type) where
  console : ConsoleState α
  originalConsole : Option (ConsoleState α)
deriving DecidableEq, Repr

/-- Shallow embedding of overrideConsole (source lines 24-53): snapshot
the console into originalConsole when no snapshot exists yet, then
install wrappers around the snapshot functions. -/
def overrideConsole {α : Type} (s : ConsoleModuleState α) : ConsoleModuleState α :=
  let orig := s.originalConsole.getD s.console
  { originalConsole := some orig,
    console :=
      { log := .wrapper "LOG" orig.log,
        error := .wrapper "ERROR" orig.error,
        warn := .wrapper "WARN" orig.warn,
        info := .wrapper "INFO" orig.info } }

/-- Shallow embedding of restoreConsole (source lines 55-62): when a
snapshot exists, put its functions back into the console slots. -/
def restoreConsole {α : Type} (s : ConsoleModuleState α) : ConsoleModuleState α :=
  match s.originalConsole with
  | none => s
  | some o => { s with console := o }

/-- Whether the try body of a run completed or threw at some stage. -/
inductive RunOutcome where
  | success
  | failure
deriving DecidableEq, Repr

/-- The console effects of one deployFolderOrZipToEdgeOne run (source
lines 935-1015): overrideConsole at the start, then the body, whose
statements never reassign the console slots whatever its outcome, then
restoreConsole in the finally block, run on return and on throw alike. -/
def deployRunConsole {α : Type} (s : ConsoleModuleState α)
    (_outcome : RunOutcome) : ConsoleModuleState α :=
  restoreConsole (overrideConsole s)

/-- States of the console module reachable in the program: the state at
module load (any console, no snapshot yet) and every state after a
further deployment run. -/
inductive ReachableConsole {α : Type} : ConsoleModuleState α → Prop where
  | init (c : ConsoleState α) : ReachableConsole { console := c, originalConsole := none }
  | step (s : ConsoleModuleState α) (o : RunOutcome) :
      ReachableConsole s → ReachableConsole (deployRunConsole s o)

/-! ## Artifact enumeration (fastListFolder, getFiles; part_002 lines 586-653) -/

/-- A node of the local directory tree passed to fastListFolder: a
regular file with its byte size, or a directory with its entries in
readdir order. -/
inductive FsNode where
  | file (name : String) (size : Nat)
  | dir (name : String) (children : List FsNode)

/-- One file-list entry (source lines 129-133). -/
structure FileInfo where
  isDir : Bool
  path : String
  size : Nat
deriving DecidableEq, Repr

/-- One upload-manifest entry (source lines 135-141). -/
structure CosFile where
  Bucket : String
  Region : String
  Key : String
  FilePath : String
deriving DecidableEq, Repr

/-- Models path.join of the Node path library for a directory path and a
plain entry name, as used on line 593 of the source. -/
def pathJoin (dirPath name : String) : String := dirPath ++ "/" ++ name

mutual

/-- The entries the inner deep function of fastListFolder (source lines
589-607) pushes for one directory entry: the entry itself, a directory
path carrying a trailing slash, followed by the recursive listing of a
directory. -/
def deepNode (dirPath : String) : FsNode → List FileInfo
  | .file name size =>
    [{ isDir := false, path := pathJoin dirPath name, size := size }]
  | .dir name children =>
    { isDir := true, path := pathJoin dirPath name ++ "/", size := 0 }
      :: deepList (pathJoin dirPath name) children

/-- The entries deep pushes for a whole readdir listing, in order. -/
def deepList (dirPath : String) : List FsNode → List FileInfo
  | [] => []
  | n :: ns => deepNode dirPath n ++ deepList dirPath ns

end

/-- Shallow embedding of fastListFolder (source lines 586-619): list the
tree depth first, then fail when more than one million entries were
discovered. -/
def fastListFolder (rootPath : String) (rootChildren : List FsNode) :
    Except String (List FileInfo) :=
  let list := deepList rootPath rootChildren
  if list.length > 1000000 then .error "too_much_files" else .ok list

/-- Models path.relative of the Node path library for the inputs getFiles
receives: the listed paths are the base itself or extensions of it below
a slash. -/
def pathRelative (base p : String) : String :=
  match dropPre (base.data ++ ['/']) p.data with
  | some rest => String.mk rest
  | none => if p = base then "" else p

/-- Models the global backslash-to-slash replace on line 635 of the
source. -/
def backslashToSlash (s : String) : String :=
  String.mk (s.data.map (fun c => if c = '\\' then '/' else c))

/-- Models the JS endsWith check against a single slash on line 645 of
the source. -/
def jsEndsWithSlash (s : String) : Bool := s.data.getLast? == some '/'

/-- The map step of getFiles (source lines 632-643): one manifest entry
per listed path, keyed under the target path by the posix-normalised
relative path. -/
def processEntry (localFolder bucket region targetPath : String)
    (file : FileInfo) : CosFile :=
  let filename := backslashToSlash (pathRelative localFolder file.path)
  { Bucket := bucket, Region := region,
    Key := targetPath ++ "/" ++ filename,
    FilePath := file.path }

/-- The filter step of getFiles (source lines 644-652): drop directory
entries and entries whose key collapses to the root. -/
def keepEntry (file : CosFile) : Bool :=
  if jsEndsWithSlash file.FilePath then false
  else if file.Key == "/" || file.Key == "" then false
  else true

/-- Shallow embedding of getFiles (source lines 624-653). -/
def getFiles (list : List FileInfo)
    (localFolder bucket region targetPath : String) : List CosFile :=
  (list.map (processEntry localFolder bucket region targetPath)).filter keepEntry

/-! Reference enumeration of the regular files of a tree, used to state
what the manifest must contain. -/

mutual

/-- The relative component paths and sizes of the regular files under a
node, in depth-first order. -/
def filesOfNode : FsNode → List (List String × Nat)
  | .file name size => [([name], size)]
  | .dir name children => (filesOfList children).map (fun e => (name :: e.1, e.2))

/-- The relative component paths and sizes of the regular files under a
listing, in depth-first order. -/
def filesOfList : List FsNode → List (List String × Nat)
  | [] => []
  | n :: ns => filesOfNode n ++ filesOfList ns

end

/-- The name of a node. -/
def nodeName : FsNode → String
  | .file n _ => n
  | .dir n _ => n

/-- A well-formed entry name: nonempty, without separators. -/
def validName (s : String) : Bool :=
  !s.data.isEmpty && s.data.all (fun c => !(c == '/') && !(c == '\\'))

mutual

/-- A well-formed tree node: its name is valid and so are its children. -/
def validNode : FsNode → Bool
  | .file name _ => validName name
  | .dir name children => validName name && validList children

/-- A well-formed listing: every node is well formed and sibling names
are pairwise distinct. -/
def validList : List FsNode → Bool
  | [] => true
  | n :: ns =>
    validNode n && validList ns && !(ns.map nodeName).contains (nodeName n)

end

/-- Joins relative path components with slashes. -/
def relString : List String → String
  | [] => ""
  | [c] => c
  | c :: cs => c ++ "/" ++ relString cs

/-- The absolute path of a relative component list below a root. -/
def joinedPath (root : String) (comps : List String) : String :=
  match comps with
  | [] => root
  | _ :: _ => root ++ "/" ++ relString comps

/-! ## Claim C4: endpoint resolver -/

/-- C4 counterexample: the resolver does not issue the probe to both
candidates on every run.  When the first probe request itself rejects,
the rejection propagates before the second probe is issued, and the
thrown error is the fetch error, not the invalid-credential
configuration error. -/
theorem checkAndSetBaseUrl_first_reject_counterexample :
    checkAndSetBaseUrl (.error "fetch failed: network unreachable") (.ok (some 0))
      = ([BASE_API_URL1], .error "fetch failed: network unreachable")
    ∧ [BASE_API_URL1] ≠ [BASE_API_URL1, BASE_API_URL2]
    ∧ "fetch failed: network unreachable" ≠ invalidTokenMessage := by
  refine ⟨rfl, by decide, by decide⟩

/-- C4 as amended: on every run where both probe requests resolve with a
body, both candidates are probed, and the selection follows the fixed
preference order: a first body with Code 0 selects the first candidate;
otherwise a second body with Code 0 selects the second; otherwise,
including unparseable bodies, the invalid-credential configuration error
is thrown without selecting any endpoint.  A rejection of the first
probe request is instead propagated with only the first candidate
probed. -/
theorem checkAndSetBaseUrl_selection (body1 body2 : Option Int) :
    (checkAndSetBaseUrl (.ok body1) (.ok body2)).1 = [BASE_API_URL1, BASE_API_URL2]
    ∧ (parsedCode body1 = 0 →
        (checkAndSetBaseUrl (.ok body1) (.ok body2)).2 = .ok BASE_API_URL1)
    ∧ (parsedCode body1 ≠ 0 → parsedCode body2 = 0 →
        (checkAndSetBaseUrl (.ok body1) (.ok body2)).2 = .ok BASE_API_URL2)
    ∧ (parsedCode body1 ≠ 0 → parsedCode body2 ≠ 0 →
        (checkAndSetBaseUrl (.ok body1) (.ok body2)).2 = .error invalidTokenMessage)
    ∧ (∀ e, checkAndSetBaseUrl (.error e) (.ok body2) = ([BASE_API_URL1], .error e)) := by
  by_cases h1 : parsedCode body1 = 0 <;> by_cases h2 : parsedCode body2 = 0 <;>
    simp [checkAndSetBaseUrl, h1, h2]

/-- C4 witness: unparseable first body and successful second body select
the second candidate. -/
theorem checkAndSetBaseUrl_selection_witness :
    (checkAndSetBaseUrl (.ok none) (.ok (some 0))).2 = .ok BASE_API_URL2 :=
  (checkAndSetBaseUrl_selection none (some 0)).2.2.1 (by decide) (by decide)

/-! ## Claim C7: upload-path validation -/

/-- C7 counterexample: the failure messages are "localPath does not
exist" and "localPath must be a folder or zip file", not the quoted
"path does not exist" and "must be a folder or zip file". -/
theorem validateFolder_message_counterexample :
    validateFolder "/tmp/missing" false false = .error "localPath does not exist"
    ∧ "localPath does not exist" ≠ "path does not exist"
    ∧ validateFolder "/tmp/notes.txt" true false
        = .error "localPath must be a folder or zip file"
    ∧ "localPath must be a folder or zip file" ≠ "must be a folder or zip file" := by
  refine ⟨rfl, by decide, rfl, by decide⟩

/-- C7 as amended: validateFolder fails with message "localPath does not
exist" when the path does not exist, fails with message "localPath must
be a folder or zip file" when the path exists but is neither a directory
nor carries a .zip extension (case-insensitive), and otherwise succeeds,
returning whether the path has a .zip extension. -/
theorem validateFolder_behavior (p : String) (pathExists isDirectory : Bool) :
    (pathExists = false →
      validateFolder p pathExists isDirectory = .error "localPath does not exist")
    ∧ (pathExists = true → isDirectory = false → isZipFile p = false →
      validateFolder p pathExists isDirectory
        = .error "localPath must be a folder or zip file")
    ∧ (pathExists = true → (isDirectory = true ∨ isZipFile p = true) →
      validateFolder p pathExists isDirectory = .ok (isZipFile p)) := by
  refine ⟨fun h => ?_, fun h h2 h3 => ?_, fun h h2 => ?_⟩
  · subst h; simp [validateFolder]
  · subst h; simp [validateFolder, h2, h3]
  · subst h; rcases h2 with h2 | h2 <;> simp [validateFolder, h2]

/-- C7 witness: an existing zip path with uppercase extension passes
validation and reports itself as a zip. -/
theorem validateFolder_behavior_witness :
    validateFolder "/tmp/Site.ZIP" true false = .ok (isZipFile "/tmp/Site.ZIP")
    ∧ isZipFile "/tmp/Site.ZIP" = true :=
  ⟨(validateFolder_behavior "/tmp/Site.ZIP" true false).2.2 rfl (Or.inr (by decide)),
   by decide⟩

/-! ## Claim C5: formatting failure propagates (older variant) -/

/-- C5: in the code, a rejection of the remote text-formatting call does
make the deploy operation fail.  At the concrete failing input the final
step of deployFolderOrZipToEdgeOne rethrows the fetch error, and in
particular there is no text the operation returns successfully: the
documented fallback to the raw structured output is absent. -/
theorem format_failure_propagates :
    deployFinalStep { type := "temporary", url := "https://site.example.com" }
      (fun _ => .error "fetch failed: formatting service unreachable")
      = .error "fetch failed: formatting service unreachable"
    ∧ ∀ text : String,
        deployFinalStep { type := "temporary", url := "https://site.example.com" }
          (fun _ => .error "fetch failed: formatting service unreachable")
          ≠ .ok text := by
  refine ⟨rfl, fun text h => ?_⟩
  simp [deployFinalStep, formatDeploymentMessage] at h

/-! ## Claim C2: polling exit behavior -/

/-- C2: the polling loop never exits while the observed status equals
the in-flight marker, and it exits on the very first iteration whose
observed status differs, returning that deployment as the terminal
result whatever post-exit responses would have said. -/
theorem pollProjectStatus_exit_behavior :
    (∀ (deploymentId : String) (pre : List (List Deployment))
        (ds : List Deployment) (post : List (List Deployment)) (d : Deployment),
      (∀ l ∈ pre, ∃ d', l.find? (fun x => x.DeploymentId == deploymentId) = some d'
          ∧ d'.Status = "Process") →
      ds.find? (fun x => x.DeploymentId == deploymentId) = some d →
      d.Status ≠ "Process" →
      pollProjectStatus deploymentId (pre ++ ds :: post) = some (.ok d))
    ∧ (∀ (deploymentId : String) (trace : List (List Deployment)),
      (∀ l ∈ trace, ∃ d', l.find? (fun x => x.DeploymentId == deploymentId) = some d'
          ∧ d'.Status = "Process") →
      pollProjectStatus deploymentId trace = none) := by
  constructor
  · intro deploymentId pre
    induction pre with
    | nil =>
      intro ds post d _ hfind hne
      simp [pollProjectStatus, hfind, hne]
    | cons l ls ih =>
      intro ds post d hpre hfind hne
      obtain ⟨d', hfd, hst⟩ := hpre l (List.mem_cons_self l ls)
      simpa [pollProjectStatus, hfd, hst] using
        ih ds post d (fun l2 hl2 => hpre l2 (List.mem_cons_of_mem _ hl2)) hfind hne
  · intro deploymentId trace
    induction trace with
    | nil => intro _; rfl
    | cons l ls ih =>
      intro h
      obtain ⟨d', hfd, hst⟩ := h l (List.mem_cons_self l ls)
      simpa [pollProjectStatus, hfd, hst] using
        ih (fun l2 hl2 => h l2 (List.mem_cons_of_mem _ hl2))

/-- C2 witness: one in-flight poll, then a first differing status, which
is returned untouched with a further response ignored. -/
theorem pollProjectStatus_exit_behavior_witness :
    pollProjectStatus "d1"
      [[⟨"d1", "Process", ""⟩],
       [⟨"d1", "Success", "https://x.example.com"⟩],
       [⟨"d1", "Failed", ""⟩]]
      = some (.ok ⟨"d1", "Success", "https://x.example.com"⟩) :=
  pollProjectStatus_exit_behavior.1 "d1"
    [[⟨"d1", "Process", ""⟩]]
    [⟨"d1", "Success", "https://x.example.com"⟩]
    [[⟨"d1", "Failed", ""⟩]]
    ⟨"d1", "Success", "https://x.example.com"⟩
    (by
      intro l hl
      simp only [List.mem_singleton] at hl
      subst hl
      exact ⟨⟨"d1", "Process", ""⟩, rfl, rfl⟩)
    rfl
    (by decide)

/-! ## Claim C6: per-run credential caching -/

/-- A cache hit returns the cached credential object unchanged, touching
neither the remote service nor the state. -/
theorem getCosTempToken_hit (projectName : String)
    (lookup : Except String (List Project))
    (fetchToken : Nat → Except String CosTempTokenResponse)
    (t : CosTempTokenResponse) (st : TokenRunState)
    (h : st.cache.token = some t) :
    getCosTempToken projectName lookup fetchToken st = (.ok t, st) := by
  simp [getCosTempToken, h]

/-- Iterating calls from a state whose cache holds a token returns that
token every time without changing the state. -/
theorem callTokenN_hit (projectName : String)
    (lookup : Except String (List Project))
    (fetchToken : Nat → Except String CosTempTokenResponse)
    (t : CosTempTokenResponse) :
    ∀ (n : Nat) (st : TokenRunState), st.cache.token = some t →
      callTokenN projectName lookup fetchToken n st
        = (List.replicate n (.ok t), st) := by
  intro n
  induction n with
  | zero => intro st _; rfl
  | succ m ih =>
    intro st h
    simp [callTokenN, getCosTempToken_hit projectName lookup fetchToken t st h,
      ih st h, List.replicate_succ]

/-- The first call of a run performs the single remote round trip and
caches its result. -/
theorem getCosTempToken_first (previous : TokenRunState) (projectName : String)
    (lookup : Except String (List Project))
    (fetchToken : Nat → Except String CosTempTokenResponse)
    (t : CosTempTokenResponse)
    (hbody : projectName = "" ∨ ∃ p ps, lookup = .ok (p :: ps))
    (hfetch : fetchToken 0 = .ok t) :
    getCosTempToken projectName lookup fetchToken (runStart previous)
      = (.ok t, { cache := { token := some t, cos := none }, fetchCount := 1 }) := by
  rcases hbody with h | ⟨p, ps, h⟩
  · simp [getCosTempToken, runStart, resetTokenCache, h, hfetch]
  · by_cases hpn : projectName = "" <;>
      simp [getCosTempToken, runStart, resetTokenCache, h, hpn, hfetch]

/-- C6: the token cache is reset at the start of every run, so the first
call of a run never observes credentials cached by a previous run and
performs the single remote round trip of the run; every later call of
the run returns the cached credential object with no further round trip,
leaving the round-trip count at one however many calls are made. -/
theorem cosTempToken_cached_per_run (previous : TokenRunState)
    (projectName : String) (lookup : Except String (List Project))
    (fetchToken : Nat → Except String CosTempTokenResponse)
    (t : CosTempTokenResponse)
    (hbody : projectName = "" ∨ ∃ p ps, lookup = .ok (p :: ps))
    (hfetch : fetchToken 0 = .ok t) :
    (runStart previous).cache.token = none
    ∧ ∀ n : Nat,
        (callTokenN projectName lookup fetchToken (n + 1) (runStart previous)).1
          = List.replicate (n + 1) (.ok t)
        ∧ (callTokenN projectName lookup fetchToken (n + 1) (runStart previous)).2.fetchCount
          = 1 := by
  refine ⟨rfl, fun n => ?_⟩
  have hfirst := getCosTempToken_first previous projectName lookup fetchToken t hbody hfetch
  have htail := callTokenN_hit projectName lookup fetchToken t n
    { cache := { token := some t, cos := none }, fetchCount := 1 } rfl
  constructor
  · simp [callTokenN, hfirst, htail, List.replicate_succ]
  · simp [callTokenN, hfirst, htail]

/-- A credential object cached by an earlier run. -/
def staleTok : CosTempTokenResponse :=
  ⟨0, "old-bucket", "old-region", "old-path", "old-token", "old-id", "old-key"⟩

/-- The fresh credential object served by the remote during a run. -/
def freshTok : CosTempTokenResponse :=
  ⟨0, "bucket-1", "ap-region", "/pages/new", "tok-1", "id-1", "key-1"⟩

/-- C6 witness: two calls within a run started over a state still
carrying a stale cached credential both return the fresh token, with
exactly one remote round trip performed. -/
theorem cosTempToken_cached_per_run_witness :
    (callTokenN "" (.ok []) (fun _ => .ok freshTok) 2
        (runStart ⟨⟨some staleTok, none⟩, 7⟩)).1
      = List.replicate 2 (.ok freshTok)
    ∧ (callTokenN "" (.ok []) (fun _ => .ok freshTok) 2
        (runStart ⟨⟨some staleTok, none⟩, 7⟩)).2.fetchCount = 1 :=
  (cosTempToken_cached_per_run ⟨⟨some staleTok, none⟩, 7⟩ "" (.ok [])
    (fun _ => .ok freshTok) freshTok (Or.inl rfl) rfl).2 1

/-! ## Claim C10: console restoration -/

/-- In every reachable state of the console module, either no snapshot
exists yet or the snapshot equals the current console. -/
theorem reachable_console_inv {α : Type} {s : ConsoleModuleState α}
    (h : ReachableConsole s) :
    s.originalConsole = none ∨ s.originalConsole = some s.console := by
  induction h with
  | init c => exact Or.inl rfl
  | step s o hs ih =>
    rcases ih with h | h <;>
      simp [deployRunConsole, restoreConsole, overrideConsole, h]

/-- C10: from every reachable module state, a deployment run, whether
its body returns or throws, leaves all four console slots equal to their
pre-run values: the log-capture override never persists past the run. -/
theorem console_restored_after_run {α : Type} (s : ConsoleModuleState α)
    (h : ReachableConsole s) (o : RunOutcome) :
    (deployRunConsole s o).console = s.console := by
  rcases reachable_console_inv h with hi | hi <;>
    simp [deployRunConsole, restoreConsole, overrideConsole, hi]

/-- C10 witness: a throwing run from the load-time state restores the
original console functions. -/
theorem console_restored_after_run_witness :
    (deployRunConsole
        (⟨⟨.base 0, .base 1, .base 2, .base 3⟩, none⟩ : ConsoleModuleState Nat)
        .failure).console
      = ⟨.base 0, .base 1, .base 2, .base 3⟩ :=
  console_restored_after_run _ (ReachableConsole.init _) .failure

/-! ## Claims C1 and C9: result URL resolution -/

/-- A project with an active first custom domain, used as concrete
input. -/
def c1project : Project :=
  ⟨"p1", "demo", "Normal", "preset.example.com",
   some [⟨"Pass", "demo.example.com"⟩]⟩

/-- A successful deployment carrying a preview URL, used as concrete
input. -/
def c1dep : Deployment := ⟨"d1", "Success", "https://preview.example.com"⟩

/-- A successful encipher-token response, used as concrete input. -/
def c1encipher : String → Except String EncipherResponse :=
  fun _ => .ok ⟨0, "tok", 5, ""⟩

/-- The result the code produces for c1dep in the Preview environment. -/
def c1previewResult : StructuredResult :=
  ⟨"temporary", "https://preview.example.com?eo_token=tok&eo_time=5", "p1",
   "https://console.cloud.tencent.com/edgeone/pages/project/p1/index", "demo"⟩

/-- C1 counterexample: with the requested environment Preview, a
successful deployment of a project whose custom domain has validation
status Pass still resolves to the temporary tokenized URL, not to the
custom URL the claim requires for every environment. -/
theorem customDomain_preview_counterexample :
    getDeploymentStructuredResult c1dep "p1" .Preview (some c1project)
        c1encipher BASE_API_URL1
      = .ok c1previewResult
    ∧ c1previewResult.type = "temporary"
    ∧ c1previewResult.type ≠ "custom"
    ∧ c1previewResult.url ≠ "https://demo.example.com" := by
  refine ⟨rfl, rfl, by decide, by decide⟩

/-- C1 as amended: for every run whose deployment reaches the terminal
success status, if the requested environment is Production and the first
custom domain of the project has validation status Pass, then
getDeploymentStructuredResult returns a result of type custom whose url
is exactly https prepended to the domain, never the temporary tokenized
form, whatever the preview URL and the encipher service would have
yielded.  In the Preview environment the custom-domain branch is
skipped. -/
theorem customDomain_production_pass_url (dep : Deployment)
    (projectId : String) (project : Project) (customDomain : CustomDomain)
    (rest : List CustomDomain)
    (encipher : String → Except String EncipherResponse) (baseApiUrl : String)
    (hstatus : dep.Status = "Success")
    (hdoms : project.CustomDomains = some (customDomain :: rest))
    (hpass : customDomain.Status = "Pass") :
    getDeploymentStructuredResult dep projectId .Production (some project)
        encipher baseApiUrl
      = .ok { type := "custom",
              url := "https://" ++ customDomain.Domain,
              projectId := projectId,
              projectName := project.Name,
              consoleUrl := getProjectConsoleUrl baseApiUrl projectId } := by
  simp [getDeploymentStructuredResult, hstatus, hdoms, hpass]

/-- C1 witness: the concrete Production run with a passing custom domain
resolves to the custom URL. -/
theorem customDomain_production_pass_url_witness :
    getDeploymentStructuredResult c1dep "p1" .Production (some c1project)
        c1encipher BASE_API_URL1
      = .ok { type := "custom",
              url := "https://" ++ "demo.example.com",
              projectId := "p1",
              projectName := "demo",
              consoleUrl := getProjectConsoleUrl BASE_API_URL1 "p1" } :=
  customDomain_production_pass_url c1dep "p1" c1project
    ⟨"Pass", "demo.example.com"⟩ [] c1encipher BASE_API_URL1 rfl rfl rfl

/-- C9: URL resolution only inspects the first element of the
custom-domain list.  Whenever the first custom domain has a validation
status other than Pass, a successful deployment resolves to the
temporary tokenized URL, in every environment, even when a later domain
of the list has status Pass. -/
theorem first_custom_domain_only (dep : Deployment) (projectId : String)
    (project : Project) (customDomain : CustomDomain)
    (rest : List CustomDomain) (env : Env) (enc : EncipherResponse)
    (encipher : String → Except String EncipherResponse) (baseApiUrl : String)
    (hstatus : dep.Status = "Success")
    (hdoms : project.CustomDomains = some (customDomain :: rest))
    (hfail : customDomain.Status ≠ "Pass")
    (henc : encipher (resolvedDomain dep project) = .ok enc)
    (hcode : enc.Code = 0) (htok : enc.Token ≠ "") (hts : enc.Timestamp ≠ 0) :
    getDeploymentStructuredResult dep projectId env (some project)
        encipher baseApiUrl
      = .ok { type := "temporary",
              url := "https://" ++ resolvedDomain dep project
                      ++ "?eo_token=" ++ enc.Token
                      ++ "&eo_time=" ++ toString enc.Timestamp,
              projectId := projectId,
              projectName := project.Name,
              consoleUrl := getProjectConsoleUrl baseApiUrl projectId } := by
  cases env <;>
    simp [getDeploymentStructuredResult, hstatus, hdoms, hfail, henc,
      hcode, htok, hts]

/-- A project whose first custom domain failed validation while the
second passed, used as concrete input. -/
def c9project : Project :=
  ⟨"p9", "late", "Normal", "preset9.example.com",
   some [⟨"Fail", "first.example.com"⟩, ⟨"Pass", "second.example.com"⟩]⟩

/-- A successful deployment without preview URL, used as concrete
input. -/
def c9dep : Deployment := ⟨"d9", "Success", ""⟩

/-- C9 witness: with a failed first custom domain and a passing second
one, the Production run still resolves to the tokenized preset-domain
URL. -/
theorem first_custom_domain_only_witness :
    getDeploymentStructuredResult c9dep "p9" .Production (some c9project)
        (fun _ => .ok ⟨0, "tok9", 9, ""⟩) BASE_API_URL2
      = .ok { type := "temporary",
              url := "https://" ++ resolvedDomain c9dep c9project
                      ++ "?eo_token=" ++ "tok9" ++ "&eo_time=" ++ toString (9 : Int),
              projectId := "p9",
              projectName := "late",
              consoleUrl := getProjectConsoleUrl BASE_API_URL2 "p9" } :=
  first_custom_domain_only c9dep "p9" c9project ⟨"Fail", "first.example.com"⟩
    [⟨"Pass", "second.example.com"⟩] .Production ⟨0, "tok9", 9, ""⟩
    (fun _ => .ok ⟨0, "tok9", 9, ""⟩) BASE_API_URL2
    rfl rfl (by decide) rfl rfl (by decide) (by decide)

/-! ## Claim C8: transcript deduplication -/

/-- Splitting around a separator absent from both left parts is
unambiguous. -/
theorem sepfree_split (sep : Char) :
    ∀ (a b u v : List Char), sep ∉ a → sep ∉ b →
      a ++ sep :: u = b ++ sep :: v → a = b ∧ u = v := by
  intro a
  induction a with
  | nil =>
    intro b u v _ hb h
    cases b with
    | nil => exact ⟨rfl, (List.cons.injEq .. ▸ h).2⟩
    | cons c cs =>
      exfalso
      have : sep = c := (List.cons.injEq .. ▸ h).1
      exact hb (this ▸ List.mem_cons_self c cs)
  | cons c cs ih =>
    intro b u v ha hb h
    cases b with
    | nil =>
      exfalso
      have : c = sep := (List.cons.injEq .. ▸ h).1
      exact ha (this ▸ List.mem_cons_self c cs)
    | cons d ds =>
      have hcd : c = d := (List.cons.injEq .. ▸ h).1
      have htail : cs ++ sep :: u = ds ++ sep :: v := (List.cons.injEq .. ▸ h).2
      have := ih ds u v (fun hm => ha (List.mem_cons_of_mem _ hm))
        (fun hm => hb (List.mem_cons_of_mem _ hm)) htail
      exact ⟨by rw [hcd, this.1], this.2⟩

/-- The transcript key is injective on pairs whose level part is free of
colons. -/
theorem pairKey_inj (p q : String × String)
    (hp : ':' ∉ p.1.data) (hq : ':' ∉ q.1.data)
    (h : pairKey p = pairKey q) : p = q := by
  have hdata : p.1.data ++ ':' :: ' ' :: p.2.data
      = q.1.data ++ ':' :: ' ' :: q.2.data := by
    have := congrArg String.data h
    simpa [pairKey, strData_append] using this
  obtain ⟨h1, h2⟩ := sepfree_split ':' p.1.data q.1.data _ _ hp hq hdata
  have hmsg : p.2.data = q.2.data := (List.cons.injEq .. ▸ h2).2
  obtain ⟨p1, p2⟩ := p
  obtain ⟨q1, q2⟩ := q
  simp only [Prod.mk.injEq]
  exact ⟨strExt h1, strExt hmsg⟩

/-- The key of an entry is the key of its pair. -/
theorem logKey_eq_pairKey (e : LogEntry) : logKey e = pairKey (pairOf e) := rfl

/-- A captured level contains no colon. -/
theorem capturedLevel_no_colon (s : String) (h : capturedLevel s) :
    ':' ∉ s.data := by
  rcases h with h | h | h | h <;> rw [h] <;> decide

/-- The source filter keyed on the joined string agrees with
first-occurrence deduplication keyed on the (level, message) pair, for
any seen set whose levels are colon-free. -/
theorem dedup_agree (logs : List LogEntry) :
    ∀ seenP : List (String × String),
      (∀ e ∈ logs, capturedLevel e.level) →
      (∀ pr ∈ seenP, ':' ∉ pr.1.data) →
      (dedupLogs logs (seenP.map pairKey)).map pairOf
        = dedupPairs (logs.map pairOf) seenP := by
  induction logs with
  | nil => intro seenP _ _; rfl
  | cons e rest ih =>
    intro seenP hlogs hseen
    have hcl : ':' ∉ e.level.data :=
      capturedLevel_no_colon e.level (hlogs e (List.mem_cons_self e rest))
    have hrest : ∀ x ∈ rest, capturedLevel x.level :=
      fun x hx => hlogs x (List.mem_cons_of_mem _ hx)
    by_cases hm : pairOf e ∈ seenP
    · have hk : logKey e ∈ seenP.map pairKey := by
        rw [logKey_eq_pairKey]
        exact List.mem_map_of_mem pairKey hm
      simp only [dedupLogs, dedupPairs, List.map_cons, if_pos hk, if_pos hm]
      exact ih seenP hrest hseen
    · have hk : logKey e ∉ seenP.map pairKey := by
        intro hmem
        rw [logKey_eq_pairKey] at hmem
        obtain ⟨pr, hpr, hkey⟩ := List.mem_map.mp hmem
        exact hm (pairKey_inj pr (pairOf e) (hseen pr hpr) hcl hkey ▸ hpr)
      simp only [dedupLogs, dedupPairs, List.map_cons, if_neg hk, if_neg hm,
        List.map_cons]
      have : logKey e :: seenP.map pairKey
          = ((pairOf e :: seenP).map pairKey) := by
        simp [logKey_eq_pairKey]
      rw [this]
      rw [ih (pairOf e :: seenP) hrest ?_]
      intro pr hpr
      rcases List.mem_cons.mp hpr with h | h
      · exact h ▸ hcl
      · exact hseen pr h

/-- C8: for every log sequence whose entries carry the captured levels,
the transcript lines produced by formatLogs (one per retained entry)
contain exactly one line for each distinct (level, message) pair, in
first-occurrence order: the retained entries project to the
first-occurrence deduplication of the pair sequence, so two entries with
identical level and message yield one line while two entries sharing a
message under different levels yield two. -/
theorem formatLogs_dedup_pairs (logs : List LogEntry)
    (hlogs : ∀ e ∈ logs, capturedLevel e.level) :
    (dedupLogs logs []).map pairOf = dedupPairs (logs.map pairOf) []
    ∧ (dedupLogs logs []).map logKey
        = (dedupPairs (logs.map pairOf) []).map pairKey := by
  have h := dedup_agree logs [] hlogs (fun pr hpr => absurd hpr (List.not_mem_nil pr))
  simp only [List.map_nil] at h
  refine ⟨h, ?_⟩
  calc (dedupLogs logs []).map logKey
      = ((dedupLogs logs []).map pairOf).map pairKey := by
        rw [List.map_map]; rfl
    _ = (dedupPairs (logs.map pairOf) []).map pairKey := by rw [h]

/-- A concrete captured sequence: a duplicated (level, message) pair and
the same message under a second level. -/
def c8logs : List LogEntry :=
  [⟨"t1", "LOG", "upload done"⟩, ⟨"t2", "LOG", "upload done"⟩,
   ⟨"t3", "ERROR", "upload done"⟩]

/-- C8 witness: the duplicated pair is kept once and the same message
under a different level is kept as a second line. -/
theorem formatLogs_dedup_pairs_witness :
    (dedupLogs c8logs []).map pairOf = dedupPairs (c8logs.map pairOf) []
    ∧ (dedupLogs c8logs []).map pairOf
        = [("LOG", "upload done"), ("ERROR", "upload done")] :=
  ⟨(formatLogs_dedup_pairs c8logs
      (by intro e he; fin_cases he <;> simp [capturedLevel])).1,
   by decide⟩

/-! ## Claim C3: the upload manifest -/

/-- Dropping a pattern from the list it starts always succeeds with the
remainder. -/
theorem dropPre_append (x : List Char) : ∀ y, dropPre x (x ++ y) = some y := by
  induction x with
  | nil => intro y; rfl
  | cons c cs ih => intro y; simp [dropPre, ih]

/-- Relative path of a strict descendant below the base. -/
theorem pathRelative_join (root rel : String) :
    pathRelative root (root ++ "/" ++ rel) = rel := by
  unfold pathRelative
  have hdata : (root ++ "/" ++ rel).data = (root.data ++ ['/']) ++ rel.data := by
    simp [strData_append]
  rw [hdata, dropPre_append]

/-- Unfolding of relString on a list of at least two components. -/
theorem relString_cons_cons (a b : String) (l : List String) :
    relString (a :: b :: l) = a ++ "/" ++ relString (b :: l) := rfl

/-- Appending one component to a nonempty component list appends one
slash-separated segment. -/
theorem relString_append_single (l : List String) (x : String) (h : l ≠ []) :
    relString (l ++ [x]) = relString l ++ "/" ++ x := by
  induction l with
  | nil => exact absurd rfl h
  | cons a t ih =>
    cases t with
    | nil => rfl
    | cons b t2 =>
      have ih2 := ih (by simp)
      simp only [List.cons_append] at ih2 ⊢
      rw [relString_cons_cons, ih2, relString_cons_cons]
      simp [strAppend_assoc]

/-- Joining one more name below a joined path appends one segment. -/
theorem joinedPath_concat (root : String) (comps : List String) (name : String) :
    pathJoin (joinedPath root comps) name = joinedPath root (comps ++ [name]) := by
  cases comps with
  | nil => rfl
  | cons c cs =>
    have h := relString_append_single (c :: cs) name (by simp)
    simp only [List.cons_append] at h
    simp only [pathJoin, joinedPath, List.cons_append]
    rw [h]
    simp [strAppend_assoc]

/-- What a valid entry name guarantees: nonempty and free of both
separators. -/
theorem validName_spec (s : String) (h : validName s = true) :
    s.data ≠ [] ∧ ∀ c ∈ s.data, c ≠ '/' ∧ c ≠ '\\' := by
  unfold validName at h
  simp only [Bool.and_eq_true, List.all_eq_true, Bool.not_eq_true] at h
  obtain ⟨h1, h2⟩ := h
  refine ⟨by simpa [List.isEmpty_iff] using h1, fun c hc => ?_⟩
  have := h2 c hc
  simp only [Bool.and_eq_true, Bool.not_eq_true', beq_eq_false_iff_ne] at this
  exact this

/-- The last element of a nonempty list is a member. -/
theorem mem_of_getLast_opt {l : List Char} {c : Char}
    (h : l.getLast? = some c) : c ∈ l := by
  induction l with
  | nil => simp [List.getLast?] at h
  | cons a t ih =>
    cases t with
    | nil =>
      simp only [List.getLast?_singleton, Option.some.injEq] at h
      simp [h]
    | cons b t2 =>
      rw [List.getLast?_cons_cons] at h
      exact List.mem_cons_of_mem _ (ih h)

/-- Character data of the slash-joined form of a component list whose
names are all valid: nonempty, backslash-free, not slash-terminated. -/
theorem relString_data_facts :
    ∀ l : List String, l ≠ [] → (∀ s ∈ l, validName s = true) →
      (relString l).data ≠ []
      ∧ '\\' ∉ (relString l).data
      ∧ (relString l).data.getLast? ≠ some '/' := by
  intro l
  induction l with
  | nil => intro h; exact absurd rfl h
  | cons a t ih =>
    intro _ hall
    obtain ⟨hane, hasep⟩ := validName_spec a (hall a (List.mem_cons_self a t))
    cases t with
    | nil =>
      refine ⟨hane, fun hm => (hasep _ hm).2 rfl, fun hlast => ?_⟩
      have : '/' ∈ a.data := by
        have := mem_of_getLast_opt hlast
        simpa [relString] using this
      exact (hasep _ this).1 rfl
    | cons b t2 =>
      have htail := ih (by simp) (fun s hs => hall s (List.mem_cons_of_mem _ hs))
      obtain ⟨hne, hbs, hlast⟩ := htail
      have hdata : (relString (a :: b :: t2)).data
          = (a.data ++ ['/']) ++ (relString (b :: t2)).data := by
        rw [relString_cons_cons]
        simp [strData_append]
      refine ⟨?_, ?_, ?_⟩
      · rw [hdata]; simp [hne]
      · rw [hdata]
        intro hm
        rcases List.mem_append.mp hm with hm | hm
        · rcases List.mem_append.mp hm with hm | hm
          · exact (hasep _ hm).2 rfl
          · simp at hm
        · exact hbs hm
      · rw [hdata, List.getLast?_append_of_ne_nil _ hne]
        exact hlast

/-- The backslash normalisation is the identity on backslash-free
strings. -/
theorem backslashToSlash_id (s : String) (h : '\\' ∉ s.data) :
    backslashToSlash s = s := by
  apply strExt
  show s.data.map (fun c => if c = '\\' then '/' else c) = s.data
  rw [List.map_congr_left (g := id) ?_, List.map_id]
  intro c hc
  simp only [id]
  rw [if_neg (fun (he : c = '\\') => h (he ▸ hc))]

/-- The joined path below a nonempty component list, written out. -/
theorem joinedPath_ne_nil (root : String) (comps : List String)
    (h : comps ≠ []) : joinedPath root comps = root ++ "/" ++ relString comps := by
  cases comps with
  | nil => exact absurd rfl h
  | cons c cs => rfl

/-- A path of the form base slash tail with a valid tail does not end in
a slash. -/
theorem jsEndsWithSlash_file (root r : String) (hne : r.data ≠ [])
    (hlast : r.data.getLast? ≠ some '/') :
    jsEndsWithSlash (root ++ "/" ++ r) = false := by
  unfold jsEndsWithSlash
  have hd : (root ++ "/" ++ r).data = (root.data ++ ['/']) ++ r.data := by
    simp [strData_append]
  rw [hd, List.getLast?_append_of_ne_nil _ hne, beq_eq_false_iff_ne]
  exact hlast

/-- A path with a trailing slash ends in a slash. -/
theorem jsEndsWithSlash_dir (p : String) : jsEndsWithSlash (p ++ "/") = true := by
  unfold jsEndsWithSlash
  have hd : (p ++ "/").data = p.data ++ ['/'] := by simp [strData_append]
  rw [hd, List.getLast?_concat]
  rfl

/-- A key of the form target slash tail with nonempty tail is neither
the root key nor empty. -/
theorem key_not_root (targetPath r : String) (h : r.data ≠ []) :
    targetPath ++ "/" ++ r ≠ "/" ∧ targetPath ++ "/" ++ r ≠ "" := by
  have hlen : 0 < r.data.length := List.length_pos.mpr h
  have hd : (targetPath ++ "/" ++ r).data = (targetPath.data ++ ['/']) ++ r.data := by
    simp [strData_append]
  constructor
  · intro he
    have h2 := congrArg String.data he
    rw [hd] at h2
    have h3 := congrArg List.length h2
    simp only [List.length_append, List.length_cons, List.length_nil] at h3
    omega
  · intro he
    have h2 := congrArg String.data he
    rw [hd] at h2
    have h3 := congrArg List.length h2
    simp only [List.length_append, List.length_cons, List.length_nil] at h3
    omega

/-- The filter of getFiles keeps an entry that is not slash-terminated
and whose key is not the root. -/
theorem keepEntry_true (f : CosFile) (h1 : jsEndsWithSlash f.FilePath = false)
    (h2 : f.Key ≠ "/") (h3 : f.Key ≠ "") : keepEntry f = true := by
  simp [keepEntry, h1, h2, h3]

/-- The filter of getFiles drops a slash-terminated entry. -/
theorem keepEntry_false_dir (f : CosFile)
    (h1 : jsEndsWithSlash f.FilePath = true) : keepEntry f = false := by
  simp [keepEntry, h1]

/-- The manifest entry the claim requires for a regular file with the
given relative component path and size. -/
def mkManifestEntry (root bucket region targetPath : String)
    (e : List String × Nat) : CosFile :=
  { Bucket := bucket, Region := region,
    Key := targetPath ++ "/" ++ relString e.1,
    FilePath := root ++ "/" ++ relString e.1 }

mutual

/-- Mapping and filtering of getFiles over the listing of a single valid
node below a joined directory path yields exactly the manifest entries
of the regular files of the node. -/
theorem processNode_eq (root bucket region targetPath : String)
    (comps : List String) (hc : ∀ c ∈ comps, validName c = true)
    (n : FsNode) (hn : validNode n = true) :
    ((deepNode (joinedPath root comps) n).map
        (processEntry root bucket region targetPath)).filter keepEntry
      = (filesOfNode n).map
          (fun e => mkManifestEntry root bucket region targetPath (comps ++ e.1, e.2)) := by
  cases n with
  | file name size =>
    have hvn : validName name = true := by simpa [validNode] using hn
    have hcomps : ∀ c ∈ comps ++ [name], validName c = true := by
      intro c hc2
      rcases List.mem_append.mp hc2 with h | h
      · exact hc c h
      · simp only [List.mem_singleton] at h
        exact h ▸ hvn
    obtain ⟨hne, hbs, hlast⟩ :=
      relString_data_facts (comps ++ [name]) (by simp) hcomps
    have hpath : pathJoin (joinedPath root comps) name
        = root ++ "/" ++ relString (comps ++ [name]) := by
      rw [joinedPath_concat]
      exact joinedPath_ne_nil root _ (by simp)
    obtain ⟨hk1, hk2⟩ := key_not_root targetPath (relString (comps ++ [name])) hne
    simp only [deepNode, List.map_cons, List.map_nil, processEntry, hpath]
    rw [pathRelative_join, backslashToSlash_id _ hbs]
    have hkeep : keepEntry
        { Bucket := bucket, Region := region,
          Key := targetPath ++ "/" ++ relString (comps ++ [name]),
          FilePath := root ++ "/" ++ relString (comps ++ [name]) } = true :=
      keepEntry_true _ (jsEndsWithSlash_file root _ hne hlast) hk1 hk2
    simp [List.filter, hkeep, filesOfNode, mkManifestEntry]
  | dir name children =>
    have hn2 : validName name = true ∧ validList children = true := by
      simpa [validNode] using hn
    have hcomps : ∀ c ∈ comps ++ [name], validName c = true := by
      intro c hc2
      rcases List.mem_append.mp hc2 with h | h
      · exact hc c h
      · simp only [List.mem_singleton] at h
        exact h ▸ hn2.1
    have hkeep : keepEntry (processEntry root bucket region targetPath
        { isDir := true, path := pathJoin (joinedPath root comps) name ++ "/",
          size := 0 }) = false := by
      apply keepEntry_false_dir
      exact jsEndsWithSlash_dir _
    have hrec := processList_eq root bucket region targetPath
      (comps ++ [name]) hcomps children hn2.2
    rw [joinedPath_concat] at hkeep
    simp only [deepNode, List.map_cons, List.filter_cons]
    rw [joinedPath_concat, hkeep, if_neg Bool.false_ne_true, hrec]
    simp only [filesOfNode, List.map_map]
    apply List.map_congr_left
    intro e _
    simp [Function.comp, mkManifestEntry, List.append_assoc]
  termination_by sizeOf n

/-- Mapping and filtering of getFiles over the listing of a valid
readdir listing below a joined directory path yields exactly the
manifest entries of the regular files of the listing. -/
theorem processList_eq (root bucket region targetPath : String)
    (comps : List String) (hc : ∀ c ∈ comps, validName c = true)
    (l : List FsNode) (hl : validList l = true) :
    ((deepList (joinedPath root comps) l).map
        (processEntry root bucket region targetPath)).filter keepEntry
      = (filesOfList l).map
          (fun e => mkManifestEntry root bucket region targetPath (comps ++ e.1, e.2)) := by
  cases l with
  | nil => rfl
  | cons n ns =>
    have hl2 : validNode n = true ∧ validList ns = true := by
      unfold validList at hl
      simp only [Bool.and_eq_true] at hl
      exact ⟨hl.1.1, hl.1.2⟩
    have h1 := processNode_eq root bucket region targetPath comps hc n hl2.1
    have h2 := processList_eq root bucket region targetPath comps hc ns hl2.2
    simp only [deepList, List.map_append, List.filter_append, h1, h2,
      filesOfList, List.map_append]
  termination_by sizeOf l

end

/-- Every file path contributed by a node starts with the node name. -/
theorem filesOfNode_head (n : FsNode) :
    ∀ e ∈ filesOfNode n, ∃ t, e.1 = nodeName n :: t := by
  cases n with
  | file name size =>
    intro e he
    simp only [filesOfNode, List.mem_singleton] at he
    exact ⟨[], by rw [he]; rfl⟩
  | dir name children =>
    intro e he
    simp only [filesOfNode, List.mem_map] at he
    obtain ⟨p, _, hp⟩ := he
    exact ⟨p.1, by rw [← hp]; rfl⟩

/-- Every file path contributed by a listing starts with the name of one
of its nodes. -/
theorem filesOfList_head (l : List FsNode) :
    ∀ e ∈ filesOfList l, ∃ m ∈ l, ∃ t, e.1 = nodeName m :: t := by
  induction l with
  | nil => intro e he; cases he
  | cons n ns ih =>
    intro e he
    rcases List.mem_append.mp he with he | he
    · obtain ⟨t, ht⟩ := filesOfNode_head n e he
      exact ⟨n, List.mem_cons_self n ns, t, ht⟩
    · obtain ⟨m, hm, t, ht⟩ := ih e he
      exact ⟨m, List.mem_cons_of_mem _ hm, t, ht⟩

mutual

/-- File paths of a valid node are nonempty lists of valid names. -/
theorem filesOfNode_good (n : FsNode) (hn : validNode n = true) :
    ∀ e ∈ filesOfNode n, e.1 ≠ [] ∧ ∀ s ∈ e.1, validName s = true := by
  cases n with
  | file name size =>
    intro e he
    simp only [filesOfNode, List.mem_singleton] at he
    subst he
    refine ⟨by simp, fun s hs => ?_⟩
    simp only [List.mem_singleton] at hs
    subst hs
    simpa [validNode] using hn
  | dir name children =>
    intro e he
    have hn2 : validName name = true ∧ validList children = true := by
      simpa [validNode] using hn
    simp only [filesOfNode, List.mem_map] at he
    obtain ⟨p, hp, hpe⟩ := he
    have hgood := filesOfList_good children hn2.2 p hp
    subst hpe
    refine ⟨by simp, fun s hs => ?_⟩
    rcases List.mem_cons.mp hs with hs | hs
    · exact hs ▸ hn2.1
    · exact hgood.2 s hs
  termination_by sizeOf n

/-- File paths of a valid listing are nonempty lists of valid names. -/
theorem filesOfList_good (l : List FsNode) (hl : validList l = true) :
    ∀ e ∈ filesOfList l, e.1 ≠ [] ∧ ∀ s ∈ e.1, validName s = true := by
  cases l with
  | nil => intro e he; cases he
  | cons n ns =>
    intro e he
    have hl2 : validNode n = true ∧ validList ns = true := by
      unfold validList at hl
      simp only [Bool.and_eq_true] at hl
      exact ⟨hl.1.1, hl.1.2⟩
    rcases List.mem_append.mp he with he | he
    · exact filesOfNode_good n hl2.1 e he
    · exact filesOfList_good ns hl2.2 e he
  termination_by sizeOf l

end

mutual

/-- File paths of a valid node are pairwise distinct. -/
theorem filesOfNode_paths_nodup (n : FsNode) (hn : validNode n = true) :
    ((filesOfNode n).map (fun e => e.1)).Nodup := by
  cases n with
  | file name size => simp [filesOfNode]
  | dir name children =>
    have hn2 : validName name = true ∧ validList children = true := by
      simpa [validNode] using hn
    have hrec := filesOfList_paths_nodup children hn2.2
    simp only [filesOfNode, List.map_map]
    have hshape : ((filesOfList children).map
          ((fun e => e.1) ∘ (fun e => (name :: e.1, e.2))))
        = ((filesOfList children).map (fun e => e.1)).map (fun p => name :: p) := by
      simp [List.map_map, Function.comp]
    rw [hshape]
    exact hrec.map (fun p q hpq => (List.cons.injEq .. ▸ hpq).2)
  termination_by sizeOf n

/-- File paths of a valid listing are pairwise distinct: paths from
distinct siblings differ in their head name. -/
theorem filesOfList_paths_nodup (l : List FsNode) (hl : validList l = true) :
    ((filesOfList l).map (fun e => e.1)).Nodup := by
  cases l with
  | nil => simp [filesOfList]
  | cons n ns =>
    have hl2 : validNode n = true ∧ validList ns = true
        ∧ ((ns.map nodeName).contains (nodeName n)) = false := by
      unfold validList at hl
      simp only [Bool.and_eq_true, Bool.not_eq_true'] at hl
      exact ⟨hl.1.1, hl.1.2, hl.2⟩
    have hnotin : nodeName n ∉ ns.map nodeName := by
      intro hmem
      have h2 : (ns.map nodeName).contains (nodeName n) = true :=
        List.elem_eq_true_of_mem hmem
      rw [hl2.2.2] at h2
      cases h2
    simp only [filesOfList, List.map_append]
    apply List.Nodup.append
    · exact filesOfNode_paths_nodup n hl2.1
    · exact filesOfList_paths_nodup ns hl2.2.1
    · intro x hx hx2
      obtain ⟨e1, he1, hxe1⟩ := List.mem_map.mp hx
      obtain ⟨e2, he2, hxe2⟩ := List.mem_map.mp hx2
      obtain ⟨t1, ht1⟩ := filesOfNode_head n e1 he1
      obtain ⟨m, hm, t2, ht2⟩ := filesOfList_head ns e2 he2
      have : nodeName n = nodeName m := by
        have : nodeName n :: t1 = nodeName m :: t2 := by
          rw [← ht1, ← ht2, hxe1, hxe2]
        exact (List.cons.injEq .. ▸ this).1
      exact hnotin (this ▸ List.mem_map_of_mem nodeName hm)
  termination_by sizeOf l

end

/-- The slash-joined form determines a valid component list. -/
theorem relString_inj : ∀ p q : List String,
    p ≠ [] → (∀ s ∈ p, validName s = true) →
    q ≠ [] → (∀ s ∈ q, validName s = true) →
    relString p = relString q → p = q := by
  intro p
  induction p with
  | nil => intro q h; exact absurd rfl h
  | cons a p2 ih =>
    intro q _ hpv hqne hqv h
    obtain ⟨hane, hasep⟩ := validName_spec a (hpv a (List.mem_cons_self a p2))
    cases q with
    | nil => exact absurd rfl hqne
    | cons b q2 =>
      obtain ⟨hbne, hbsep⟩ := validName_spec b (hqv b (List.mem_cons_self b q2))
      cases p2 with
      | nil =>
        cases q2 with
        | nil => rw [show a = b by simpa [relString] using h]
        | cons b2 q3 =>
          exfalso
          have hdata : a.data = b.data
              ++ '/' :: (relString (b2 :: q3)).data := by
            have := congrArg String.data h
            simpa [relString, relString_cons_cons, strData_append,
              List.append_assoc] using this
          have : '/' ∈ a.data := by
            rw [hdata]
            exact List.mem_append.mpr (Or.inr (List.mem_cons_self ..))
          exact (hasep _ this).1 rfl
      | cons a2 p3 =>
        cases q2 with
        | nil =>
          exfalso
          have hdata : b.data = a.data
              ++ '/' :: (relString (a2 :: p3)).data := by
            have := congrArg String.data h.symm
            simpa [relString, relString_cons_cons, strData_append,
              List.append_assoc] using this
          have : '/' ∈ b.data := by
            rw [hdata]
            exact List.mem_append.mpr (Or.inr (List.mem_cons_self ..))
          exact (hbsep _ this).1 rfl
        | cons b2 q3 =>
          have hdata : a.data ++ '/' :: (relString (a2 :: p3)).data
              = b.data ++ '/' :: (relString (b2 :: q3)).data := by
            have := congrArg String.data h
            simpa [relString_cons_cons, strData_append,
              List.append_assoc] using this
          have hsplit := sepfree_split '/' a.data b.data _ _
            (fun hm => (hasep _ hm).1 rfl) (fun hm => (hbsep _ hm).1 rfl) hdata
          have hhead : a = b := strExt hsplit.1
          have htail : a2 :: p3 = b2 :: q3 :=
            ih (b2 :: q3) (by simp)
              (fun s hs => hpv s (List.mem_cons_of_mem _ hs)) (by simp)
              (fun s hs => hqv s (List.mem_cons_of_mem _ hs))
              (strExt hsplit.2)
          rw [hhead, htail]

/-- Distinct valid file paths produce distinct manifest keys. -/
theorem manifest_keys_nodup (targetPath : String) (tree : List FsNode)
    (hvalid : validList tree = true) :
    ((filesOfList tree).map (fun e => targetPath ++ "/" ++ relString e.1)).Nodup := by
  have hpaths := filesOfList_paths_nodup tree hvalid
  have hshape : (filesOfList tree).map (fun e => targetPath ++ "/" ++ relString e.1)
      = ((filesOfList tree).map (fun e => e.1)).map
          (fun r => targetPath ++ "/" ++ relString r) := by
    simp [List.map_map, Function.comp]
  rw [hshape]
  apply List.Nodup.map_on ?_ hpaths
  intro x hx y hy hxy
  obtain ⟨e1, he1, hxe⟩ := List.mem_map.mp hx
  obtain ⟨e2, he2, hye⟩ := List.mem_map.mp hy
  have g1 := filesOfList_good tree hvalid e1 he1
  have g2 := filesOfList_good tree hvalid e2 he2
  have hrel : relString x = relString y := by
    have hdata := congrArg String.data hxy
    simp only [strData_append] at hdata
    exact strExt (List.append_cancel_left hdata)
  subst hxe
  subst hye
  exact relString_inj e1.1 e2.1 g1.1 g1.2 g2.1 g2.2 hrel

/-- C3: for every valid local directory tree the listing of which stays
under the entry limit, the manifest produced by fastListFolder followed
by getFiles is exactly one entry per regular file under the root, in
depth-first order, keyed target path, slash, posix relative path; the
keys are pairwise distinct, so every file appears exactly once; no
directory entry survives the filter, since only file entries remain; and
no key is empty or the bare root. -/
theorem upload_manifest_correct (root bucket region targetPath : String)
    (tree : List FsNode) (hvalid : validList tree = true)
    (l : List FileInfo) (hok : fastListFolder root tree = .ok l) :
    getFiles l root bucket region targetPath
      = (filesOfList tree).map (mkManifestEntry root bucket region targetPath)
    ∧ ((getFiles l root bucket region targetPath).map (fun f => f.Key)).Nodup
    ∧ ∀ f ∈ getFiles l root bucket region targetPath, f.Key ≠ "" ∧ f.Key ≠ "/" := by
  have hl : l = deepList root tree := by
    unfold fastListFolder at hok
    by_cases hc : (deepList root tree).length > 1000000
    · rw [if_pos hc] at hok
      cases hok
    · rw [if_neg hc] at hok
      exact ((Except.ok.injEq ..).mp hok).symm
  have hmain : getFiles l root bucket region targetPath
      = (filesOfList tree).map (mkManifestEntry root bucket region targetPath) := by
    rw [hl]
    unfold getFiles
    have h := processList_eq root bucket region targetPath []
      (fun c hc => absurd hc (List.not_mem_nil c)) tree hvalid
    simpa [joinedPath] using h
  refine ⟨hmain, ?_, ?_⟩
  · rw [hmain]
    have hshape : ((filesOfList tree).map
          (mkManifestEntry root bucket region targetPath)).map (fun f => f.Key)
        = (filesOfList tree).map (fun e => targetPath ++ "/" ++ relString e.1) := by
      simp [List.map_map, Function.comp, mkManifestEntry]
    rw [hshape]
    exact manifest_keys_nodup targetPath tree hvalid
  · rw [hmain]
    intro f hf
    obtain ⟨e, he, hfe⟩ := List.mem_map.mp hf
    have hgood := filesOfList_good tree hvalid e he
    obtain ⟨hne, _, _⟩ := relString_data_facts e.1 hgood.1 hgood.2
    obtain ⟨h1, h2⟩ := key_not_root targetPath (relString e.1) hne
    subst hfe
    exact ⟨h2, h1⟩

/-- The two-file scenario of the specification: index.html at the root
and logo.png below assets. -/
def c3tree : List FsNode :=
  [.file "index.html" 100, .dir "assets" [.file "logo.png" 2000]]

/-- C3 witness: the scenario tree yields exactly the two expected
manifest entries with distinct keys. -/
theorem upload_manifest_correct_witness :
    getFiles (deepList "/tmp/site" c3tree) "/tmp/site" "bucket-1" "ap-region" "prefix-1"
      = (filesOfList c3tree).map
          (mkManifestEntry "/tmp/site" "bucket-1" "ap-region" "prefix-1") :=
  (upload_manifest_correct "/tmp/site" "bucket-1" "ap-region" "prefix-1" c3tree
    (by decide) (deepList "/tmp/site" c3tree) rfl).1

end EdgeOnePages
